import Mathlib

/-!
# Pay-demo: payment-link lookup and response envelope

A shallow embedding of

* `internal/model/merchant_payment_links.go`: the `MerchantPaymentLink` record and its
  accessor `GetByToken`, which is the one-line GORM chain
  `tx.Where("token = ?", token).First(m).Error`;
* `internal/util/response.go`: the `Response[T]` / `ResponseAny` envelopes and the
  constructors `OK`, `OKNil`, `Err`.

The two library calls the source makes (GORM's `Where` / `First`, and `encoding/json` for the
struct tags) are embedded with the semantics those libraries document; every place where the
embedding abstracts is noted at the definition.
-/

set_option autoImplicit false

namespace model

/-- Go's `time.Time`, kept as an instant on an integer time line. -/
abbrev Time := Int

/-- The `decimal.Decimal` of shopspring: an integer coefficient and a base-10 exponent. -/
structure Decimal where
  value : Int
  exp : Int
  deriving DecidableEq, Repr

/-- The record type `MerchantPaymentLink` (merchant_payment_links.go, lines 34-43).
`uint64` fields are naturals (no arithmetic is done on them), `gorm.DeletedAt` (a nullable
time) is an `Option`: `none` is SQL NULL, the row is live. -/
structure MerchantPaymentLink where
  ID : Nat
  MerchantAPIKeyID : Nat
  Token : String
  Amount : Decimal
  ProductName : String
  Remark : String
  CreatedAt : Time
  DeletedAt : Option Time
  deriving DecidableEq, Repr

/-- The zero value of `MerchantPaymentLink`, what `var m MerchantPaymentLink` gives. -/
def MerchantPaymentLink.zero : MerchantPaymentLink :=
  { ID := 0, MerchantAPIKeyID := 0, Token := "", Amount := { value := 0, exp := 0 },
    ProductName := "", Remark := "", CreatedAt := 0, DeletedAt := none }

/-- Go `error` values that can come out of the lookup: GORM's sentinel
`gorm.ErrRecordNotFound`, or an error raised by the database driver (identified by its text). -/
inductive Error where
  | ErrRecordNotFound
  | driver (msg : String)
  deriving DecidableEq, Repr

/-- The conditions that end up in the WHERE clause of the statement `GetByToken` runs.
* `tokenEq v` is `clause.Expr{SQL: "token = ?", Vars: [v]}`, built by `Where("token = ?", v)`;
* `deletedAtIsNull` is the query clause GORM's schema attaches to a model with a
  `gorm.DeletedAt` field (`deleted_at IS NULL`);
* `idEq v` is `clause.Eq{Column: primary key, Value: v}`, which GORM's query builder adds
  when the destination struct carries a non-zero primary key. -/
inductive Expression where
  | tokenEq (v : String)
  | deletedAtIsNull
  | idEq (v : Nat)
  deriving DecidableEq, Repr

/-- Does a row satisfy one condition.  `token = ?` is exact string equality (a deterministic,
case-sensitive collation). -/
def Expression.holds : Expression → MerchantPaymentLink → Bool
  | .tokenEq v, row => row.Token == v
  | .deletedAtIsNull, row => row.DeletedAt.isNone
  | .idEq v, row => row.ID == v

/-- The connection behind a handle: the rows of table `merchant_payment_links` as the handle
sees them, and `err`, the error the driver answers a query with (`none`: the query runs). -/
structure ConnPool where
  rows : List MerchantPaymentLink
  err : Option Error

/-- The part of `gorm.Statement` the lookup touches: the accumulated WHERE conditions and
the `Unscoped` flag (which switches the soft-delete clause off). -/
structure Statement where
  Clauses : List Expression
  Unscoped : Bool

/-- The handle `*gorm.DB`: connection, the statement under construction, and the `Error`
field that the chain's last call leaves for the caller. -/
structure DB where
  ConnPool : ConnPool
  Statement : Statement
  Error : Option Error

/-- A handle as `gorm.Open` (or a new session) gives it, on a table with contents `rows`
and a driver answering with `err`: no condition chained, default scope, no error yet. -/
def Open (rows : List MerchantPaymentLink) (err : Option Error) : DB :=
  { ConnPool := { rows := rows, err := err },
    Statement := { Clauses := [], Unscoped := false },
    Error := none }

/-- The call `tx.Where("token = ?", token)`: appends the condition to the statement. -/
def DB.Where (tx : DB) (token : String) : DB :=
  { tx with Statement := { tx.Statement with Clauses := tx.Statement.Clauses ++ [.tokenEq token] } }

/-- The rows a SELECT with the conjunction of `conds` matches. -/
def selectRows (conds : List Expression) (rows : List MerchantPaymentLink) :
    List MerchantPaymentLink :=
  rows.filter (fun row => conds.all (fun c => c.holds row))

/-- The effect of `ORDER BY id LIMIT 1` on a result set: a row of least `ID`, if any. -/
def firstByID : List MerchantPaymentLink → Option MerchantPaymentLink
  | [] => none
  | row :: rest =>
    match firstByID rest with
    | none => some row
    | some best => if row.ID ≤ best.ID then some row else some best

/-- The WHERE conditions of the statement `First(dest)` executes, as GORM's query callback
builds them: the chained ones; the query clause of the schema's `gorm.DeletedAt` field
(`deleted_at IS NULL`) unless the handle is `Unscoped`; and, the destination being a
struct of the model type, an equality on each primary field whose value in the destination
is not zero, here `id = dest.ID`. -/
def DB.queryConds (tx : DB) (dest : MerchantPaymentLink) : List Expression :=
  tx.Statement.Clauses
    ++ (if tx.Statement.Unscoped then [] else [.deletedAtIsNull])
    ++ (if dest.ID = 0 then [] else [.idEq dest.ID])

/-- Scanning a fetched row into the destination struct: each column value is stored in its
field, except that a NULL column leaves the field as it was.  Rows of this table hold NULL
only in `deleted_at` (the other columns are written from non-pointer fields), so a live row
scanned into a destination keeps whatever `DeletedAt` the destination held. -/
def scanInto (row dest : MerchantPaymentLink) : MerchantPaymentLink :=
  { row with DeletedAt := match row.DeletedAt with
                          | some t => some t
                          | none => dest.DeletedAt }

/-- The call `tx.First(dest)`: the resulting handle and the destination afterwards.
* a handle that already carries an error runs nothing;
* a driver error is recorded in `Error`, the destination is untouched;
* no row: `ErrRecordNotFound` (`RaiseErrorOnNotFound`), the destination is untouched;
* otherwise the first row by primary key is scanned into the destination (`scanInto`).

Not modelled: `database/sql` refuses a `uint64` argument with the high bit set, so in the
program a destination whose `ID` is 2^63 or more ends the call in a driver error before any
row is looked at; here such an `ID` is treated like every other non-zero `ID`. -/
def DB.First (tx : DB) (dest : MerchantPaymentLink) : DB × MerchantPaymentLink :=
  match tx.Error with
  | some _ => (tx, dest)
  | none =>
    match tx.ConnPool.err with
    | some e => ({ tx with Error := some e }, dest)
    | none =>
      match firstByID (selectRows (tx.queryConds dest) tx.ConnPool.rows) with
      | none => ({ tx with Error := some .ErrRecordNotFound }, dest)
      | some row => (tx, scanInto row dest)

/-- The method `GetByToken` (merchant_payment_links.go, lines 45-48):
`return tx.Where("token = ?", token).First(m).Error`.
The result is the returned error (`none` is Go's `nil`) and the receiver `*m` afterwards. -/
def MerchantPaymentLink.GetByToken (m : MerchantPaymentLink) (tx : DB) (token : String) :
    Option Error × MerchantPaymentLink :=
  let r := (tx.Where token).First m
  (r.1.Error, r.2)

/-- Rows of a table that are live and carry token `t`. -/
def liveWithToken (rows : List MerchantPaymentLink) (t : String) : List MerchantPaymentLink :=
  rows.filter (fun row => row.Token == t && row.DeletedAt.isNone)

end model

namespace util

/-- The envelope `Response[T]` (response.go, lines 27-31). -/
structure Response (T : Type) where
  ErrorMsg : String
  Data : T
  deriving DecidableEq, Repr

/-- The values `encoding/json` can be handed through an `interface{}`, as far as the
envelope needs them: `null` is a nil interface (or nil pointer, slice, map), then booleans,
integers, strings, non-nil slices (of elements other than bytes), and structs given by their
JSON keys in declaration order.  Floats, maps, byte slices, channels and custom marshalers are
outside the embedding. -/
inductive Value where
  | null
  | bool (b : Bool)
  | int (n : Int)
  | string (s : String)
  | slice (elems : List Value)
  | struct (fields : List (String × Value))
  deriving Repr

/-- Go's `any` (`interface{}`): a dynamic value, `Value.null` being `nil`. -/
abbrev GoAny := Value

/-- The type-erased envelope `ResponseAny` (response.go, lines 33-38). -/
structure ResponseAny where
  ErrorMsg : String
  Data : GoAny

/-- `OK` (response.go, lines 40-43): `Response[T]{Data: data}`; the omitted `ErrorMsg`
takes its zero value, the empty string. -/
def OK {T : Type} (data : T) : Response T :=
  { ErrorMsg := "", Data := data }

/-- `OKNil` (response.go, lines 45-48): `Response[any]{Data: nil}`. -/
def OKNil : Response GoAny :=
  { ErrorMsg := "", Data := Value.null }

/-- `Err` (response.go, lines 50-53): `Response[any]{ErrorMsg: msg, Data: nil}`. -/
def Err (msg : String) : Response GoAny :=
  { ErrorMsg := msg, Data := Value.null }

/-- Lower-case hexadecimal digit, the table `hex` of `encoding/json`. -/
def hexDigit (n : Nat) : Char :=
  if n < 10 then Char.ofNat (48 + n) else Char.ofNat (87 + n)

/-- The table `htmlSafeSet` of `encoding/json` on ASCII: printable, and none of
the double quote, ampersand, angle brackets, backslash. -/
def htmlSafe (c : Char) : Bool :=
  decide (32 ≤ c.toNat) && c != '"' && c != '&' && c != '<' && c != '>' && c != '\\'

/-- What `encoding/json` (with HTML escaping, the default of `Marshal`) writes for one
character of a string: safe ASCII as is; backslash and double quote behind a backslash;
backspace, form feed, line feed, carriage return and tab in their short forms (as current
Go releases do); every other ASCII character, the ampersand and angle brackets among them,
as a four-digit escape; the line and paragraph separators U+2028 and U+2029 as a four-digit
escape; everything else as is. -/
def escapeRune (c : Char) : List Char :=
  if c.toNat < 128 then
    if htmlSafe c then [c]
    else if c = '\\' ∨ c = '"' then ['\\', c]
    else if c.toNat = 8 then ['\\', 'b']
    else if c.toNat = 12 then ['\\', 'f']
    else if c.toNat = 10 then ['\\', 'n']
    else if c.toNat = 13 then ['\\', 'r']
    else if c.toNat = 9 then ['\\', 't']
    else ['\\', 'u', '0', '0', hexDigit (c.toNat / 16), hexDigit (c.toNat % 16)]
  else if c.toNat = 8232 ∨ c.toNat = 8233 then
    ['\\', 'u', '2', '0', '2', hexDigit (c.toNat % 16)]
  else [c]

/-- The characters of a string, escaped one by one. -/
def escapeRunes : List Char → List Char
  | [] => []
  | c :: cs => escapeRune c ++ escapeRunes cs

/-- The string encoder `appendString` of `encoding/json`: the escaped characters between
double quotes.  A Lean string is valid Unicode, so the replacement of invalid UTF-8 does
not arise. -/
def appendString (s : String) : String :=
  String.mk ('"' :: (escapeRunes s.data ++ ['"']))

/-- Value of a hexadecimal digit, in either case. -/
def hexVal (c : Char) : Option Nat :=
  if 48 ≤ c.toNat ∧ c.toNat ≤ 57 then some (c.toNat - 48)
  else if 97 ≤ c.toNat ∧ c.toNat ≤ 102 then some (c.toNat - 87)
  else if 65 ≤ c.toNat ∧ c.toNat ≤ 70 then some (c.toNat - 55)
  else none

/-- The character a two-character escape of JSON (RFC 8259, section 7) stands for. -/
def simpleEscape (e : Char) : Option Char :=
  if e = '"' then some '"'
  else if e = '\\' then some '\\'
  else if e = '/' then some '/'
  else if e = 'b' then some (Char.ofNat 8)
  else if e = 'f' then some (Char.ofNat 12)
  else if e = 'n' then some (Char.ofNat 10)
  else if e = 'r' then some (Char.ofNat 13)
  else if e = 't' then some (Char.ofNat 9)
  else none

/-- The character of a four-digit escape of JSON; code units of the surrogate range, which
stand for a character only in pairs, are not accepted. -/
def unicodeEscape (h1 h2 h3 h4 : Char) : Option Char :=
  match hexVal h1, hexVal h2, hexVal h3, hexVal h4 with
  | some a, some b, some c, some d =>
    let n := 4096 * a + 256 * b + 16 * c + d
    if 55296 ≤ n ∧ n ≤ 57343 then none else some (Char.ofNat n)
  | _, _, _, _ => none

/-- Reading of the body of a JSON string (RFC 8259, section 7): a backslash starts an
escape, an unescaped double quote or control character is not allowed. -/
def unescape : List Char → Option (List Char)
  | [] => some []
  | c :: rest =>
    if c = '\\' then
      match rest with
      | [] => none
      | e :: rest1 =>
        if e = 'u' then
          match rest1 with
          | h1 :: h2 :: h3 :: h4 :: rest2 =>
            match unicodeEscape h1 h2 h3 h4, unescape rest2 with
            | some x, some out => some (x :: out)
            | _, _ => none
          | _ => none
        else
          match simpleEscape e, unescape rest1 with
          | some x, some out => some (x :: out)
          | _, _ => none
    else if c = '"' ∨ c.toNat < 32 then none
    else
      match unescape rest with
      | some out => some (c :: out)
      | none => none

/-- Reading of a JSON string text: the string it denotes, when the text is one. -/
def unquote (s : String) : Option String :=
  match s.data with
  | [] => none
  | q :: body =>
    if q = '"' ∧ body.getLast? = some '"' then
      match unescape body.dropLast with
      | some out => some (String.mk out)
      | none => none
    else none

/-- Decimal text of an integer (`strconv.AppendInt` in base 10). -/
def intString (n : Int) : String :=
  if n < 0 then "-" ++ Nat.repr n.natAbs else Nat.repr n.toNat

mutual
/-- The encoder of `encoding/json` on a dynamic value. -/
def marshalValue : Value → String
  | .null => "null"
  | .bool b => if b then "true" else "false"
  | .int n => intString n
  | .string s => appendString s
  | .slice elems => "[" ++ marshalElems elems ++ "]"
  | .struct fields => "\x7b" ++ marshalFields fields ++ "\x7d"
/-- Elements of an array, comma separated. -/
def marshalElems : List Value → String
  | [] => ""
  | [v] => marshalValue v
  | v :: w :: vs => marshalValue v ++ "," ++ marshalElems (w :: vs)
/-- Fields of a struct in declaration order, as `"key":value`, comma separated. -/
def marshalFields : List (String × Value) → String
  | [] => ""
  | [(k, v)] => appendString k ++ ":" ++ marshalValue v
  | (k, v) :: f :: fs => appendString k ++ ":" ++ marshalValue v ++ "," ++ marshalFields (f :: fs)
end

/-- Go types whose values the envelope can carry: `reflect` is the value as
`encoding/json` sees it once it is passed as an `interface{}`. -/
class Marshalable (T : Type) where
  reflect : T → Value

instance : Marshalable GoAny := ⟨fun v => v⟩
instance : Marshalable Bool := ⟨Value.bool⟩
instance : Marshalable Int := ⟨Value.int⟩
instance : Marshalable Nat := ⟨fun n => Value.int n⟩
instance : Marshalable String := ⟨Value.string⟩
instance {T : Type} [Marshalable T] : Marshalable (Option T) :=
  ⟨fun o => match o with
    | none => Value.null
    | some x => Marshalable.reflect x⟩

/-- An exported struct field as `reflect` hands it to the encoder: its Go name, its raw tag
(the text between the back quotes in the source), and its value. -/
structure StructField where
  Name : String
  Tag : String
  value : Value

/-- May a character stand in the key of a struct tag (`reflect.StructTag.Lookup`): no space,
colon, double quote or control character. -/
def tagKeyChar (c : Char) : Bool :=
  decide (32 < c.toNat) && c != ':' && c != '"' && decide (c.toNat ≠ 127)

/-- The scan of a quoted tag value after its opening quote, up to the closing quote: the
raw value and what follows it.  A backslash takes the next character with it. -/
def scanQuoted : List Char → Option (List Char × List Char)
  | [] => none
  | c :: rest =>
    if c = '"' then some ([], rest)
    else if c = '\\' then
      match rest with
      | [] => none
      | d :: rest1 =>
        match scanQuoted rest1 with
        | some (v, r) => some (c :: d :: v, r)
        | none => none
    else
      match scanQuoted rest with
      | some (v, r) => some (c :: v, r)
      | none => none

/-- The value a raw tag value denotes (`strconv.Unquote`).  Values with escape sequences
are outside the embedding (the source has none): they are not found. -/
def unquoteTag (raw : List Char) : Option (List Char) :=
  if raw.contains '\\' then none else some raw

/-- The loop of `reflect.StructTag.Lookup` over the `key:"value"` pairs of a tag: skip
spaces, read the key up to the colon, read the quoted value, and return it when the key is
the one looked for.  `fuel` bounds the number of pairs; each pair consumes characters, so the
length of the tag is enough. -/
def tagLookup (key : List Char) : Nat → List Char → Option (List Char)
  | 0, _ => none
  | fuel + 1, tag =>
    let tag1 := tag.dropWhile (fun c => c == ' ')
    let name := tag1.takeWhile tagKeyChar
    match tag1.dropWhile tagKeyChar with
    | c1 :: c2 :: rest =>
      if name ≠ [] ∧ c1 = ':' ∧ c2 = '"' then
        match scanQuoted rest with
        | none => none
        | some (raw, rest1) =>
          if key = name then unquoteTag raw else tagLookup key fuel rest1
      else none
    | _ => none

/-- The method `StructTag.Get`: the value under `key`, or the empty string. -/
def StructTag.Get (tag : String) (key : String) : String :=
  match tagLookup key.data (tag.length + 1) tag.data with
  | some v => String.mk v
  | none => ""

/-- A character `encoding/json` accepts in a key given by a tag (`isValidTag`): letters,
digits and some punctuation.  Letters and digits outside ASCII are not recognised here. -/
def isValidTagChar (c : Char) : Bool :=
  c.isAlphanum || "!#$%&()*+-./:;<=>?@[]^_\x7b|\x7d~ ".data.contains c

/-- The check `isValidTag` of `encoding/json`. -/
def isValidTag (s : List Char) : Bool :=
  !s.isEmpty && s.all isValidTagChar

/-- The split `parseTag` of `encoding/json`: the name before the first comma and the
options after it. -/
def parseTag (tag : String) : List Char × List (List Char) :=
  match tag.data.splitOn ',' with
  | [] => ([], [])
  | name :: opts => (name, opts)

/-- What the encoder derives from a field's name and tag (`typeFields`): `none` when the
`json` tag is `-` (the field is skipped), otherwise the JSON key (the tag's name when valid,
else the Go name) and whether `omitempty` is set.  The `string` option is not modelled. -/
def fieldKey (name tag : String) : Option (String × Bool) :=
  let t := StructTag.Get tag "json"
  if t = "-" then none
  else
    let p := parseTag t
    some (if isValidTag p.1 then String.mk p.1 else name, p.2.contains "omitempty".data)

/-- The test `isEmptyValue` of `encoding/json`, used for `omitempty`. -/
def isEmptyValue : Value → Bool
  | .null => true
  | .bool b => !b
  | .int n => n == 0
  | .string s => s.data.isEmpty
  | .slice elems => elems.isEmpty
  | .struct _ => false

/-- The key and value one field contributes to the object, if it contributes. -/
def encodeField (f : StructField) : Option (String × Value) :=
  match fieldKey f.Name f.Tag with
  | none => none
  | some (k, omitEmpty) =>
    if omitEmpty && isEmptyValue f.value then none else some (k, f.value)

/-- A struct as the encoder sees it: the contributions of its fields in declaration
order. -/
def structValue (fields : List StructField) : Value :=
  .struct (fields.filterMap encodeField)

/-- The fields of `Response[T]` (response.go, lines 28-31), with their tags. -/
def Response.fields {T : Type} [Marshalable T] (r : Response T) : List StructField :=
  [ { Name := "ErrorMsg", Tag := "json:\"error_msg\"", value := .string r.ErrorMsg },
    { Name := "Data", Tag := "json:\"data\"", value := Marshalable.reflect r.Data } ]

/-- The fields of `ResponseAny` (response.go, lines 35-38), with their tags; `Data` is an
`interface{}`, encoded by the dynamic value it holds. -/
def ResponseAny.fields (r : ResponseAny) : List StructField :=
  [ { Name := "ErrorMsg", Tag := "json:\"error_msg\" example:\"\"", value := .string r.ErrorMsg },
    { Name := "Data", Tag := "json:\"data\"", value := r.Data } ]

/-- The struct `Response[T]` as the encoder sees it. -/
def Response.reflect {T : Type} [Marshalable T] (r : Response T) : Value :=
  structValue (Response.fields r)

/-- The struct `ResponseAny` as the encoder sees it. -/
def ResponseAny.reflect (r : ResponseAny) : Value :=
  structValue (ResponseAny.fields r)

instance {T : Type} [Marshalable T] : Marshalable (Response T) := ⟨Response.reflect⟩
instance : Marshalable ResponseAny := ⟨ResponseAny.reflect⟩

/-- The text `json.Marshal` produces for a value. -/
def Marshal {T : Type} [Marshalable T] (v : T) : String :=
  marshalValue (Marshalable.reflect v)

/-- Storing a typed payload in the `interface{}` field of `ResponseAny`. -/
def Response.toAny {T : Type} [Marshalable T] (r : Response T) : ResponseAny :=
  { ErrorMsg := r.ErrorMsg, Data := Marshalable.reflect r.Data }

end util

namespace model

/-- A live link with ID 1 and token `tok_a`. -/
def linkA : MerchantPaymentLink :=
  { ID := 1, MerchantAPIKeyID := 7, Token := "tok_a", Amount := { value := 1999, exp := -2 },
    ProductName := "coffee", Remark := "", CreatedAt := 1700000000, DeletedAt := none }

/-- A live link with ID 2 and token `tok_b`. -/
def linkB : MerchantPaymentLink :=
  { ID := 2, MerchantAPIKeyID := 7, Token := "tok_b", Amount := { value := 500, exp := -2 },
    ProductName := "tea", Remark := "gift", CreatedAt := 1700000100, DeletedAt := none }

/-- A soft-deleted link with ID 3 and token `tok_deleted`. -/
def linkDeleted : MerchantPaymentLink :=
  { ID := 3, MerchantAPIKeyID := 8, Token := "tok_deleted", Amount := { value := 100, exp := -2 },
    ProductName := "cake", Remark := "", CreatedAt := 1700000200, DeletedAt := some 1700000300 }

end model

/-! ## The lookup `GetByToken` -/

namespace model

theorem firstByID_eq_none_iff (l : List MerchantPaymentLink) : firstByID l = none ↔ l = [] := by
  cases l with
  | nil => simp [firstByID]
  | cons row rest =>
    simp only [firstByID]
    cases firstByID rest with
    | none => simp
    | some best => by_cases h : row.ID ≤ best.ID <;> simp [h]

theorem firstByID_singleton (row : MerchantPaymentLink) : firstByID [row] = some row := by
  simp [firstByID]

/-- The result of `ORDER BY id LIMIT 1` is one of the matched rows. -/
theorem firstByID_mem {l : List MerchantPaymentLink} {row : MerchantPaymentLink}
    (h : firstByID l = some row) : row ∈ l := by
  induction l generalizing row with
  | nil => simp [firstByID] at h
  | cons x rest ih =>
    simp only [firstByID] at h
    cases hr : firstByID rest with
    | none =>
      rw [hr] at h
      simp at h
      simp [h]
    | some best =>
      rw [hr] at h
      by_cases hle : x.ID ≤ best.ID
      · simp [hle] at h
        simp [h]
      · simp [hle] at h
        subst h
        exact List.mem_cons_of_mem _ (ih hr)

/-- On a handle without error whose driver answers, `GetByToken` is decided by the first
matched row. -/
theorem GetByToken_Open (rows : List MerchantPaymentLink) (t : String)
    (m : MerchantPaymentLink) :
    m.GetByToken (Open rows none) t =
      match firstByID (selectRows
          ([Expression.tokenEq t, Expression.deletedAtIsNull]
            ++ (if m.ID = 0 then [] else [Expression.idEq m.ID])) rows) with
      | none => (some Error.ErrRecordNotFound, m)
      | some row => (none, scanInto row m) := by
  simp only [MerchantPaymentLink.GetByToken, DB.First, DB.Where, Open, DB.queryConds]
  simp only [List.nil_append, Bool.false_eq_true, if_false, List.singleton_append,
    List.cons_append]
  split <;> simp_all

/-- Every row the statement matches is live and carries the token, whatever the receiver. -/
theorem selectRows_sub_live (rows : List MerchantPaymentLink) (t : String)
    (extra : List Expression) (x : MerchantPaymentLink)
    (hx : x ∈ selectRows ([Expression.tokenEq t, Expression.deletedAtIsNull] ++ extra) rows) :
    x ∈ liveWithToken rows t := by
  simp only [selectRows, liveWithToken, List.mem_filter, List.all_cons, List.cons_append,
    List.nil_append, Expression.holds, Bool.and_eq_true] at hx ⊢
  exact ⟨hx.1, hx.2.1, hx.2.2.1⟩

/-- With a zero primary key in the receiver the statement matches exactly the live rows
carrying the token. -/
theorem selectRows_zero (rows : List MerchantPaymentLink) (t : String) :
    selectRows ([Expression.tokenEq t, Expression.deletedAtIsNull] ++ []) rows
      = liveWithToken rows t := by
  simp [selectRows, liveWithToken, Expression.holds]

/-- No live row with the token: the lookup answers `ErrRecordNotFound` and leaves the
receiver as it was, whatever the receiver held. -/
theorem GetByToken_of_no_live (rows : List MerchantPaymentLink) (t : String)
    (m : MerchantPaymentLink) (h : liveWithToken rows t = []) :
    m.GetByToken (Open rows none) t = (some Error.ErrRecordNotFound, m) := by
  rw [GetByToken_Open]
  have hsel : selectRows ([Expression.tokenEq t, Expression.deletedAtIsNull]
      ++ (if m.ID = 0 then [] else [Expression.idEq m.ID])) rows = [] := by
    apply List.eq_nil_iff_forall_not_mem.mpr
    intro x hx
    have := selectRows_sub_live rows t _ x hx
    rw [h] at this
    exact absurd this (List.not_mem_nil x)
  rw [hsel]
  rfl

/-- In a table with pairwise distinct tokens, the rows carrying the token of a member
`r` (and satisfying a predicate `r` satisfies) are just `r`. -/
theorem filter_token_unique (rows : List MerchantPaymentLink) (r : MerchantPaymentLink)
    (p : MerchantPaymentLink → Bool)
    (huniq : (rows.map (fun x => x.Token)).Nodup) (hr : r ∈ rows) (hp : p r = true) :
    rows.filter (fun x => x.Token == r.Token && p x) = [r] := by
  induction rows with
  | nil => cases hr
  | cons x rest ih =>
    rw [List.map_cons, List.nodup_cons] at huniq
    rcases List.mem_cons.mp hr with hxr | hmem
    · subst hxr
      have hrest : rest.filter (fun x => x.Token == r.Token && p x) = [] := by
        apply List.filter_eq_nil_iff.mpr
        intro y hy hc
        simp only [Bool.and_eq_true, beq_iff_eq] at hc
        exact huniq.1 (List.mem_map.mpr ⟨y, hy, hc.1⟩)
      simp [List.filter_cons, hp, hrest]
    · have hne : x.Token ≠ r.Token := by
        intro heq
        exact huniq.1 (List.mem_map.mpr ⟨r, hmem, heq.symm⟩)
      simp [List.filter_cons, hne, ih huniq.2 hmem]

/-- A live row scanned into a destination without a deletion time is the row itself. -/
theorem scanInto_live (row dest : MerchantPaymentLink) (hrow : row.DeletedAt = none)
    (hdest : dest.DeletedAt = none) : scanInto row dest = row := by
  cases row
  simp_all [scanInto]

/-- With a zero primary key in the receiver, the outcome is decided by the live rows
carrying the token: none gives `ErrRecordNotFound`, otherwise the one of least `ID` is
scanned into the receiver. -/
theorem GetByToken_zero_receiver (rows : List MerchantPaymentLink) (t : String)
    (m : MerchantPaymentLink) (hm : m.ID = 0) :
    m.GetByToken (Open rows none) t =
      match firstByID (liveWithToken rows t) with
      | none => (some Error.ErrRecordNotFound, m)
      | some row => (none, scanInto row m) := by
  rw [GetByToken_Open, if_pos hm, selectRows_zero]

/-- C1. Soft-delete exclusion: when a token is carried only by soft-deleted rows of the
table (one of them `r`), `GetByToken` returns `ErrRecordNotFound` and the receiver keeps
the value it had before the call, so the deleted row is never scanned into it. -/
theorem GetByToken_soft_deleted (rows : List MerchantPaymentLink) (t : String)
    (r m : MerchantPaymentLink)
    (_hr : r ∈ rows) (_ht : r.Token = t) (_hd : r.DeletedAt ≠ none)
    (hlive : ∀ x ∈ rows, x.DeletedAt = none → x.Token ≠ t) :
    m.GetByToken (Open rows none) t = (some Error.ErrRecordNotFound, m) := by
  apply GetByToken_of_no_live
  apply List.filter_eq_nil_iff.mpr
  intro x hx hc
  simp only [Bool.and_eq_true, beq_iff_eq, Option.isNone_iff_eq_none] at hc
  exact hlive x hx hc.2 hc.1

theorem GetByToken_soft_deleted_witness :
    linkDeleted ∈ [linkA, linkDeleted] ∧
    MerchantPaymentLink.zero.GetByToken (Open [linkA, linkDeleted] none) "tok_deleted"
      = (some Error.ErrRecordNotFound, MerchantPaymentLink.zero) :=
  ⟨by decide,
   GetByToken_soft_deleted [linkA, linkDeleted] "tok_deleted" linkDeleted
     MerchantPaymentLink.zero (by decide) (by decide) (by decide) (by decide)⟩

/-- C2. Round-trip lookup: in a table whose tokens are pairwise distinct, looking up the
token of a live row `r` with a zero-valued receiver returns no error and leaves the receiver
equal to `r`, that is, equal in all eight fields. -/
theorem GetByToken_round_trip (rows : List MerchantPaymentLink) (r : MerchantPaymentLink)
    (huniq : (rows.map (fun x => x.Token)).Nodup) (hr : r ∈ rows)
    (hlive : r.DeletedAt = none) :
    MerchantPaymentLink.zero.GetByToken (Open rows none) r.Token = (none, r) := by
  rw [GetByToken_Open]
  have hz : MerchantPaymentLink.zero.ID = 0 := rfl
  rw [if_pos hz, selectRows_zero]
  have hone : liveWithToken rows r.Token = [r] :=
    filter_token_unique rows r (fun x => x.DeletedAt.isNone) huniq hr (by simp [hlive])
  rw [hone, firstByID_singleton]
  simp only
  rw [scanInto_live r MerchantPaymentLink.zero hlive rfl]

theorem GetByToken_round_trip_witness :
    MerchantPaymentLink.zero.GetByToken (Open [linkA, linkB, linkDeleted] none) linkB.Token
      = (none, linkB) :=
  GetByToken_round_trip [linkA, linkB, linkDeleted] linkB (by decide) (by decide) (by decide)

/-- C3. Unknown token: when no row of the table (the empty table included) carries the
token, `GetByToken` returns the sentinel `ErrRecordNotFound` (not a driver error, not
success) and leaves the receiver untouched. -/
theorem GetByToken_unknown_token (rows : List MerchantPaymentLink) (t : String)
    (m : MerchantPaymentLink) (h : ∀ x ∈ rows, x.Token ≠ t) :
    m.GetByToken (Open rows none) t = (some Error.ErrRecordNotFound, m) := by
  apply GetByToken_of_no_live
  apply List.filter_eq_nil_iff.mpr
  intro x hx hc
  simp only [Bool.and_eq_true, beq_iff_eq] at hc
  exact h x hx hc.1

theorem GetByToken_unknown_token_witness :
    MerchantPaymentLink.zero.GetByToken (Open [] none) "does-not-exist"
        = (some Error.ErrRecordNotFound, MerchantPaymentLink.zero) ∧
    linkA.GetByToken (Open [linkA, linkB] none) "does-not-exist"
        = (some Error.ErrRecordNotFound, linkA) :=
  ⟨GetByToken_unknown_token [] "does-not-exist" MerchantPaymentLink.zero (by decide),
   GetByToken_unknown_token [linkA, linkB] "does-not-exist" linkA (by decide)⟩

/-- C4 (failing input). On the table holding the live links `linkA` (ID 1, `tok_a`) and
`linkB` (ID 2, `tok_b`), a receiver that still holds `linkA` from an earlier lookup gets
`ErrRecordNotFound` for `tok_b`, although `linkB` is live and carries that token and a
zero-valued receiver finds it: the receiver's non-zero ID has become a condition of the
query. -/
theorem GetByToken_reused_receiver :
    MerchantPaymentLink.zero.GetByToken (Open [linkA, linkB] none) "tok_a" = (none, linkA) ∧
    liveWithToken [linkA, linkB] "tok_b" = [linkB] ∧
    MerchantPaymentLink.zero.GetByToken (Open [linkA, linkB] none) "tok_b" = (none, linkB) ∧
    linkA.GetByToken (Open [linkA, linkB] none) "tok_b"
      = (some Error.ErrRecordNotFound, linkA) := by
  decide

/-- C5. Store failure propagation: when the driver answers the query with an error `e`,
`GetByToken` returns exactly `e` (whatever conditions the handle already carries and
whatever the table holds) and leaves the receiver untouched. -/
theorem GetByToken_store_failure (rows : List MerchantPaymentLink) (stmt : Statement)
    (e : Error) (t : String) (m : MerchantPaymentLink) :
    m.GetByToken { ConnPool := { rows := rows, err := some e }, Statement := stmt,
                   Error := none } t = (some e, m) := by
  simp [MerchantPaymentLink.GetByToken, DB.First, DB.Where]

end model

/-! ## The response envelope -/

namespace util

/-- The tag of `Response[T].ErrorMsg` gives the key `error_msg`, without `omitempty`. -/
theorem fieldKey_ErrorMsg :
    fieldKey "ErrorMsg" "json:\"error_msg\"" = some ("error_msg", false) := by decide

/-- The tag of `ResponseAny.ErrorMsg`, with its `example` entry, gives the same key. -/
theorem fieldKey_ErrorMsg_any :
    fieldKey "ErrorMsg" "json:\"error_msg\" example:\"\"" = some ("error_msg", false) := by
  decide

/-- The tag of the `Data` fields gives the key `data`, without `omitempty`. -/
theorem fieldKey_Data : fieldKey "Data" "json:\"data\"" = some ("data", false) := by decide

/-- The object the encoder sees for a `Response[T]`: key `error_msg` with the message, then
key `data` with the payload. -/
theorem Response_reflect_eq {T : Type} [Marshalable T] (r : Response T) :
    Response.reflect r
      = Value.struct [("error_msg", Value.string r.ErrorMsg),
                      ("data", Marshalable.reflect r.Data)] := by
  simp [Response.reflect, Response.fields, structValue, encodeField, fieldKey_ErrorMsg,
    fieldKey_Data]

/-- The object the encoder sees for a `ResponseAny`: key `error_msg` with the message, then
key `data` with the payload. -/
theorem ResponseAny_reflect_eq (r : ResponseAny) :
    ResponseAny.reflect r
      = Value.struct [("error_msg", Value.string r.ErrorMsg), ("data", r.Data)] := by
  simp [ResponseAny.reflect, ResponseAny.fields, structValue, encodeField,
    fieldKey_ErrorMsg_any, fieldKey_Data]

/-- The text of a `Response[T]`: the two keys in declaration order. -/
theorem Marshal_Response {T : Type} [Marshalable T] (r : Response T) :
    Marshal r = "\x7b\"error_msg\":" ++ appendString r.ErrorMsg ++ ",\"data\":"
      ++ marshalValue (Marshalable.reflect r.Data) ++ "\x7d" := by
  show marshalValue (Response.reflect r) = _
  rw [Response_reflect_eq]
  simp only [marshalValue, marshalFields]
  have h1 : appendString "error_msg" = "\"error_msg\"" := by decide
  have h2 : appendString "data" = "\"data\"" := by decide
  rw [h1, h2]
  apply String.ext
  simp [String.data_append]

/-- The text of a `ResponseAny`: the two keys in declaration order. -/
theorem Marshal_ResponseAny (r : ResponseAny) :
    Marshal r = "\x7b\"error_msg\":" ++ appendString r.ErrorMsg ++ ",\"data\":"
      ++ marshalValue r.Data ++ "\x7d" := by
  show marshalValue (ResponseAny.reflect r) = _
  rw [ResponseAny_reflect_eq]
  simp only [marshalValue, marshalFields]
  have h1 : appendString "error_msg" = "\"error_msg\"" := by decide
  have h2 : appendString "data" = "\"data\"" := by decide
  rw [h1, h2]
  apply String.ext
  simp [String.data_append]

theorem escapeRune_ne_nil (c : Char) : escapeRune c ≠ [] := by
  unfold escapeRune
  repeat' split
  all_goals simp

theorem escapeRunes_eq_nil {cs : List Char} (h : escapeRunes cs = []) : cs = [] := by
  cases cs with
  | nil => rfl
  | cons c rest =>
    simp only [escapeRunes, List.append_eq_nil] at h
    exact absurd h.1 (escapeRune_ne_nil c)

/-- The encoder writes the two-character text of the empty string only for the empty
string. -/
theorem appendString_eq_empty {s : String} (h : appendString s = appendString "") :
    s = "" := by
  have h2 : (appendString "").data = [] ++ ['"', '"'] := by decide
  have h1 := congrArg String.data h
  rw [h2] at h1
  simp only [appendString, List.nil_append, List.cons.injEq, true_and] at h1
  have h3 : escapeRunes s.data = [] :=
    List.append_cancel_right (h1.trans (List.nil_append _).symm)
  exact String.ext (escapeRunes_eq_nil h3)

theorem hexVal_hexDigit (k : Nat) (h : k < 16) : hexVal (hexDigit k) = some k := by
  interval_cases k <;> decide

theorem unescape_plain (c : Char) (tail : List Char) (h1 : c ≠ '\\') (h2 : c ≠ '"')
    (h3 : 32 ≤ c.toNat) :
    unescape (c :: tail) = (unescape tail).map (fun out => c :: out) := by
  rw [unescape.eq_def]
  have h4 : ¬ (c = '"' ∨ c.toNat < 32) := by
    rintro (h | h)
    · exact h2 h
    · omega
  simp only [if_neg h1, if_neg h4]
  cases unescape tail <;> rfl

theorem unescape_simple (e x : Char) (tail : List Char) (he : e ≠ 'u')
    (hx : simpleEscape e = some x) :
    unescape ('\\' :: e :: tail) = (unescape tail).map (fun out => x :: out) := by
  rw [unescape.eq_def]
  simp only [if_true, if_neg he, hx]
  cases unescape tail <;> rfl

theorem unescape_unicode (h1 h2 h3 h4 x : Char) (tail : List Char)
    (hx : unicodeEscape h1 h2 h3 h4 = some x) :
    unescape ('\\' :: 'u' :: h1 :: h2 :: h3 :: h4 :: tail)
      = (unescape tail).map (fun out => x :: out) := by
  rw [unescape.eq_def]
  simp only [if_true, hx]
  cases unescape tail <;> rfl

theorem char_eq_of_toNat (c : Char) (n : Nat) (h : c.toNat = n) : c = Char.ofNat n := by
  rw [← h, Char.ofNat_toNat]

/-- Whatever the encoder writes for one character reads back as that character. -/
theorem unescape_escapeRune (c : Char) (tail : List Char) :
    unescape (escapeRune c ++ tail) = (unescape tail).map (fun out => c :: out) := by
  unfold escapeRune
  split_ifs with hlt hsafe hq h8 h12 h10 h13 h9 hls
  · simp only [htmlSafe, Bool.and_eq_true, decide_eq_true_eq, bne_iff_ne, ne_eq] at hsafe
    exact unescape_plain c tail hsafe.2 hsafe.1.1.1.1.2 hsafe.1.1.1.1.1
  · rcases hq with rfl | rfl
    · exact unescape_simple _ _ tail (by decide) (by decide)
    · exact unescape_simple _ _ tail (by decide) (by decide)
  · rw [char_eq_of_toNat c 8 h8]
    exact unescape_simple _ _ tail (by decide) (by decide)
  · rw [char_eq_of_toNat c 12 h12]
    exact unescape_simple _ _ tail (by decide) (by decide)
  · rw [char_eq_of_toNat c 10 h10]
    exact unescape_simple _ _ tail (by decide) (by decide)
  · rw [char_eq_of_toNat c 13 h13]
    exact unescape_simple _ _ tail (by decide) (by decide)
  · rw [char_eq_of_toNat c 9 h9]
    exact unescape_simple _ _ tail (by decide) (by decide)
  · apply unescape_unicode
    have hz : hexVal '0' = some 0 := by decide
    have ha := hexVal_hexDigit (c.toNat / 16) (by omega)
    have hb := hexVal_hexDigit (c.toNat % 16) (by omega)
    simp only [unicodeEscape, hz, ha, hb]
    have hn : 4096 * 0 + 256 * 0 + 16 * (c.toNat / 16) + c.toNat % 16 = c.toNat := by omega
    rw [hn, if_neg (by omega), Char.ofNat_toNat]
  · apply unescape_unicode
    have hz : hexVal '0' = some 0 := by decide
    have h2 : hexVal '2' = some 2 := by decide
    have hb := hexVal_hexDigit (c.toNat % 16) (by omega)
    simp only [unicodeEscape, hz, h2, hb]
    have hn : 4096 * 2 + 256 * 0 + 16 * 2 + c.toNat % 16 = c.toNat := by omega
    rw [hn, if_neg (by omega), Char.ofNat_toNat]
  · have h1 : c ≠ '\\' := by
      intro h
      rw [h] at hlt
      exact hlt (by decide)
    have h2 : c ≠ '"' := by
      intro h
      rw [h] at hlt
      exact hlt (by decide)
    exact unescape_plain c tail h1 h2 (by omega)

theorem unescape_escapeRunes (cs : List Char) : unescape (escapeRunes cs) = some cs := by
  induction cs with
  | nil => rfl
  | cons c rest ih =>
    rw [escapeRunes, unescape_escapeRune, ih]
    rfl

/-- Reading back what the string encoder wrote gives the string that was encoded. -/
theorem unquote_appendString (s : String) : unquote (appendString s) = some s := by
  simp [unquote, appendString, List.dropLast_concat, unescape_escapeRunes]

/-- C6. Constructor results: `OK d` has an empty `ErrorMsg` and `Data = d`, `OKNil` has an
empty `ErrorMsg` and a nil `Data`, `Err m` has `ErrorMsg = m` and a nil `Data`; the three
are total functions. -/
theorem constructors_result (T : Type) (d : T) (m : String) :
    (OK d).ErrorMsg = "" ∧ (OK d).Data = d ∧
    OKNil.ErrorMsg = "" ∧ OKNil.Data = Value.null ∧
    (Err m).ErrorMsg = m ∧ (Err m).Data = Value.null :=
  ⟨rfl, rfl, rfl, rfl, rfl, rfl⟩

/-- C7. Success wire shape: the text of `OK d` is the object with key `error_msg` mapped to
the empty string followed by key `data` mapped to the text of `d`; `OK 42` is written
`{"error_msg":"","data":42}` and `OKNil` is written `{"error_msg":"","data":null}`. -/
theorem Marshal_OK :
    (∀ (T : Type) [Marshalable T] (d : T),
      Marshal (OK d) = "\x7b\"error_msg\":\"\",\"data\":" ++ Marshal d ++ "\x7d") ∧
    Marshal (OK (42 : Int)) = "\x7b\"error_msg\":\"\",\"data\":42\x7d" ∧
    Marshal OKNil = "\x7b\"error_msg\":\"\",\"data\":null\x7d" := by
  refine ⟨?_, by decide, by decide⟩
  intro T _ d
  rw [Marshal_Response]
  have h : appendString "" = "\"\"" := by decide
  simp only [OK]
  rw [h]
  apply String.ext
  simp [String.data_append, Marshal]

/-- C8. Error wire shape: the text of `Err m` is the object whose `error_msg` is the JSON
string text of `m` (the encoder's output, which reads back as `m`) and whose `data` is
`null`; `Err "bad token"` is written `{"error_msg":"bad token","data":null}`. -/
theorem Marshal_Err (m : String) :
    Marshal (Err m) = "\x7b\"error_msg\":" ++ appendString m ++ ",\"data\":null\x7d" ∧
    unquote (appendString m) = some m ∧
    Marshal (Err "bad token") = "\x7b\"error_msg\":\"bad token\",\"data\":null\x7d" := by
  refine ⟨?_, unquote_appendString m, by decide⟩
  rw [Marshal_Response]
  apply String.ext
  simp [String.data_append, Err, Marshalable.reflect, marshalValue]

/-- C9. The generic and the type-erased envelope agree on the wire: for every message `e`
and payload `d`, `Response[T]{e, d}` and `ResponseAny{e, d}` are both seen by the encoder as
the object with key `error_msg` holding `e` followed by key `data` holding `d` (the keys
read from the `json` tags of each struct, the `example` tag of `ResponseAny` changing
nothing), both are written as the text `{"error_msg":<e>,"data":<d>}`, and so the two
texts are identical. -/
theorem Marshal_Response_eq_ResponseAny (T : Type) [Marshalable T] (e : String) (d : T) :
    Response.reflect ({ ErrorMsg := e, Data := d } : Response T)
      = Value.struct [("error_msg", Value.string e), ("data", Marshalable.reflect d)] ∧
    ResponseAny.reflect ({ ErrorMsg := e, Data := Marshalable.reflect d } : ResponseAny)
      = Value.struct [("error_msg", Value.string e), ("data", Marshalable.reflect d)] ∧
    Marshal ({ ErrorMsg := e, Data := d } : Response T)
      = "\x7b\"error_msg\":" ++ appendString e ++ ",\"data\":" ++ Marshal d ++ "\x7d" ∧
    Marshal ({ ErrorMsg := e, Data := Marshalable.reflect d } : ResponseAny)
      = "\x7b\"error_msg\":" ++ appendString e ++ ",\"data\":" ++ Marshal d ++ "\x7d" ∧
    Marshal ({ ErrorMsg := e, Data := d } : Response T)
      = Marshal ({ ErrorMsg := e, Data := Marshalable.reflect d } : ResponseAny) := by
  refine ⟨Response_reflect_eq _, ResponseAny_reflect_eq _, ?_, ?_, ?_⟩
  · rw [Marshal_Response]
    rfl
  · rw [Marshal_ResponseAny]
    rfl
  · rw [Marshal_Response, Marshal_ResponseAny]

/-- C10. The error signal is lost exactly on the empty message: `Err m` equals `OKNil` if
and only if `m` is empty, its `ErrorMsg` is non-empty if and only if `m` is, and the texts
of `Err m` and `OKNil` coincide if and only if `m` is empty. -/
theorem Err_eq_OKNil_iff (m : String) :
    (Err m = OKNil ↔ m = "") ∧
    ((Err m).ErrorMsg ≠ "" ↔ m ≠ "") ∧
    (Marshal (Err m) = Marshal OKNil ↔ m = "") := by
  refine ⟨?_, Iff.rfl, ?_⟩
  · constructor
    · intro h
      exact congrArg Response.ErrorMsg h
    · intro h
      subst h
      rfl
  · constructor
    · intro h
      rw [Marshal_Response, Marshal_Response] at h
      apply appendString_eq_empty
      have h1 := congrArg String.data h
      simp only [String.data_append] at h1
      have h3 := List.append_cancel_left
        (List.append_cancel_right (List.append_cancel_right (List.append_cancel_right h1)))
      exact String.ext h3
    · intro h
      subst h
      rfl

end util
